import Mathlib

/-!
# Verification of the-sniper-bot's tick-to-order core

A shallow embedding of the trading bot's core in Lean 4.  `rust_decimal`'s
`Decimal` values are modelled as rationals (`ℚ`); `Decimal::floor` is `Int.floor`
and `Decimal::round` (banker's rounding, round-half-to-even) is modelled
explicitly as `roundHalfEven` below.  The `f64` indicator values kept by the
strategy are likewise idealized as rationals.  Fallible paths are explicit:
the execution handler's order outcome is an `Except` parameter of the engine
model, and every observable side effect of `handle_signal` (the order placed,
the strategy's stored position, the state written to disk) is a field of the
returned record.  The `ta`-crate indicator computations (RSI, Bollinger, ATR)
are external to the repository; they are abstracted as an `IndicatorOracle`:
arbitrary functions of the list of closed candles consumed so far, which is
exactly the information the streaming indicators fold over.
-/

/-- Model of `Decimal::round` in `rust_decimal`: rounds half to even (banker's rounding):
`6.5 ↦ 6`, `7.5 ↦ 8`.  Modelled on `ℚ` via the floor and fractional part. -/
def roundHalfEven (x : ℚ) : ℤ :=
  let f : ℚ := x - (⌊x⌋ : ℚ)
  if f < 1/2 then ⌊x⌋
  else if 1/2 < f then ⌊x⌋ + 1
  else if Even ⌊x⌋ then ⌊x⌋ else ⌊x⌋ + 1

/-- Model of `Decimal::round_dp n`: banker's rounding to `n` decimal places. -/
def roundDp (n : ℕ) (x : ℚ) : ℚ :=
  (roundHalfEven (x * 10 ^ n) : ℚ) / 10 ^ n

namespace precision

/-- From `src/utils/precision.rs::normalize_quantity`: rounds a quantity DOWN to the
nearest multiple of `step_size`; a zero step returns the amount unchanged. -/
def normalize_quantity (amount step_size : ℚ) : ℚ :=
  if step_size = 0 then amount
  else (⌊amount / step_size⌋ : ℚ) * step_size

/-- From `src/utils/precision.rs::normalize_price`: rounds a price to the NEAREST
multiple of `tick_size` (`Decimal::round`, i.e. banker's rounding); a zero tick
returns the price unchanged. -/
def normalize_price (price tick_size : ℚ) : ℚ :=
  if tick_size = 0 then price
  else (roundHalfEven (price / tick_size) : ℚ) * tick_size

end precision

namespace BinanceClient

/-- From `src/connectors/binance.rs::BinanceClient::normalize_price` (the
`ExecutionHandler` impl): rounds the price DOWN to a multiple of the client's
cached `tick_size`; a zero tick size falls back to `round_dp(2)`. -/
def normalize_price (tick_size price : ℚ) : ℚ :=
  if tick_size = 0 then roundDp 2 price
  else (⌊price / tick_size⌋ : ℚ) * tick_size

/-- From `src/connectors/binance.rs::BinanceClient::normalize_quantity`: rounds the
quantity DOWN to a multiple of the cached `step_size`; a zero step size falls
back to `round_dp(3)`. -/
def normalize_quantity (step_size quantity : ℚ) : ℚ :=
  if step_size = 0 then roundDp 3 quantity
  else (⌊quantity / step_size⌋ : ℚ) * step_size

end BinanceClient

/-! ## Data model (`src/types.rs`) -/

/-- From `src/types.rs::Side`. -/
inductive Side where
  | Buy
  | Sell
deriving DecidableEq, Repr

/-- From `src/types.rs::Signal`. -/
inductive Signal where
  | Advice (side : Side) (price : ℚ)
  | StateChanged
  | Hold
deriving DecidableEq, Repr

/-- From `src/types.rs::Position`.  The Rust field `open`-like names are kept;
`Decimal` fields become `ℚ`. -/
structure Position where
  symbol : String
  quantity : ℚ
  entry_price : ℚ
  unrealized_pnl : ℚ
  highest_price : ℚ
deriving DecidableEq, Repr

/-- From `src/types.rs::Ticker` (the tick).  `price` is the mid price; the
timestamp is in milliseconds. -/
structure Ticker where
  symbol : String
  price : ℚ
  bid_price : ℚ
  ask_price : ℚ
  bid_qty : ℚ
  ask_qty : ℚ
  timestamp : ℕ
deriving DecidableEq, Repr

/-- From `src/types.rs::OrderResponse`. -/
structure OrderResponse where
  id : String
  symbol : String
  status : String
deriving DecidableEq, Repr

/-! ## Candle aggregation (`src/strategies/scalper.rs`, lines 13–43) -/

/-- Struct `CandleBuilder` from `src/strategies/scalper.rs`.  The Rust field `open`
is `open_` here (`open` is a Lean keyword). -/
structure CandleBuilder where
  open_time : ℕ
  open_ : ℚ
  high : ℚ
  low : ℚ
  close : ℚ
deriving DecidableEq, Repr

/-- The minute bucket of a millisecond timestamp:
`(timestamp / 60_000) * 60_000` with integer (floor) division. -/
def bucketStart (timestamp : ℕ) : ℕ :=
  timestamp / 60000 * 60000

/-- Model of `CandleBuilder::new`: a fresh candle seeded by a tick
(open = high = low = close = tick.price). -/
def CandleBuilder.new (tick : Ticker) : CandleBuilder :=
  { open_time := bucketStart tick.timestamp
    open_ := tick.price
    high := tick.price
    low := tick.price
    close := tick.price }

/-- Model of `CandleBuilder::update`: merge a tick into the live candle
(raise the high, lower the low, replace the close; `open` is fixed). -/
def CandleBuilder.update (c : CandleBuilder) (tick : Ticker) : CandleBuilder :=
  { c with
    high := if tick.price > c.high then tick.price else c.high
    low := if tick.price < c.low then tick.price else c.low
    close := tick.price }

/-- One step of the candle logic at the top of `on_tick` (lines 131–145),
as a pure transition: from the current live candle and a tick, produce the
new live candle and the candle closed by this tick, if any. -/
def candleStep (current : Option CandleBuilder) (tick : Ticker) :
    Option CandleBuilder × Option CandleBuilder :=
  match current with
  | some candle =>
      if bucketStart tick.timestamp > candle.open_time then
        (some (CandleBuilder.new tick), some candle)
      else
        (some (candle.update tick), none)
  | none => (some (CandleBuilder.new tick), none)

/-- Folding `candleStep` over a tick list, collecting the closed candles in
order of emission. -/
def runCandles (current : Option CandleBuilder) :
    List Ticker → Option CandleBuilder × List CandleBuilder
  | [] => (current, [])
  | tick :: ticks =>
      let step := candleStep current tick
      let rest := runCandles step.1 ticks
      (rest.1, step.2.toList ++ rest.2)

/-! ## The strategy (`src/strategies/scalper.rs`) -/

/-- The `ta`-crate indicator computations consumed by `close_candle`
(`rsi.next`, `atr.next`, `bb.next`).  Each streaming indicator is a fold over
the closed candles it has consumed, so its current output is a function of
that list.  The repository treats these as an external library; the claims
hold for every oracle. -/
structure IndicatorOracle where
  rsiNext : List CandleBuilder → ℚ
  atrNext : List CandleBuilder → ℚ
  bbNext : List CandleBuilder → ℚ × ℚ × ℚ

/-- The mutable state of `RsiBollingerStrategy` (fields of the Rust struct;
the `ta` indicator objects `rsi`, `bb`, `atr` are represented by the list
`closed_candles` of candles fed to them, which determines their outputs via
the oracle). -/
structure RsiBollingerStrategy where
  symbol : String
  closed_candles : List CandleBuilder
  current_candle : Option CandleBuilder
  last_rsi_value : ℚ
  last_atr_value : ℚ
  last_bb_values : Option (ℚ × ℚ × ℚ)
  position : Option Position
  warmup_period : ℕ
  processed_candles : ℕ
  obi_threshold : ℚ
  min_volatility : ℚ
  trailing_callback : ℚ
deriving Repr

/-- Model of `RsiBollingerStrategy::new` (lines 71–91): fresh strategy state.
`last_rsi_value = 50.0`, `last_atr_value = 0.0`, no candle, no position,
warm-up target 50 candles, trailing callback 0.2%. -/
def RsiBollingerStrategy.new (symbol : String) (obi_threshold min_volatility : ℚ) :
    RsiBollingerStrategy :=
  { symbol := symbol
    closed_candles := []
    current_candle := none
    last_rsi_value := 50
    last_atr_value := 0
    last_bb_values := none
    position := none
    warmup_period := 50
    processed_candles := 0
    obi_threshold := obi_threshold
    min_volatility := min_volatility
    trailing_callback := 2/1000 }

/-- Model of `RsiBollingerStrategy::close_candle` (lines 93–110): feed the closed
candle to RSI, ATR and Bollinger, store their outputs, and count the candle. -/
def RsiBollingerStrategy.close_candle (O : IndicatorOracle)
    (s : RsiBollingerStrategy) (candle : CandleBuilder) : RsiBollingerStrategy :=
  let fed := s.closed_candles ++ [candle]
  { s with
    closed_candles := fed
    last_rsi_value := O.rsiNext fed
    last_atr_value := O.atrNext fed
    last_bb_values := some (O.bbNext fed)
    processed_candles := s.processed_candles + 1 }

/-- Candle phase of `on_tick` (step "1. Candle Logic", lines 130–145): close
the live candle if the tick starts a later minute, otherwise merge the tick. -/
def RsiBollingerStrategy.candlePhase (O : IndicatorOracle)
    (s : RsiBollingerStrategy) (tick : Ticker) : RsiBollingerStrategy :=
  match s.current_candle with
  | some candle =>
      if bucketStart tick.timestamp > candle.open_time then
        { s.close_candle O candle with current_candle := some (CandleBuilder.new tick) }
      else
        { s with current_candle := some (candle.update tick) }
  | none => { s with current_candle := some (CandleBuilder.new tick) }

/-- Model of `RsiBollingerStrategy::on_tick` (lines 129–234), returning the emitted
`Signal` together with the post-call strategy state.  The phases mirror the
source: candle logic, warm-up gate, indicator extraction, OBI, then the
entry/exit logic on `position`. -/
def RsiBollingerStrategy.on_tick (O : IndicatorOracle)
    (s : RsiBollingerStrategy) (tick : Ticker) : Signal × RsiBollingerStrategy :=
  -- 1. Candle Logic
  let s1 := s.candlePhase O tick
  -- 2. Warm-up Check
  if s1.processed_candles < s1.warmup_period then (Signal.Hold, s1)
  else
    -- 3. Indicator Extraction
    match s1.last_bb_values with
    | none => (Signal.Hold, s1)
    | some bbVals =>
      let bb_lower := bbVals.1
      -- 4. OBI Calculation
      let total_qty := tick.bid_qty + tick.ask_qty
      let obi := if total_qty ≠ 0 then (tick.bid_qty - tick.ask_qty) / total_qty else 0
      -- 5. Entry/Exit Logic
      match s1.position with
      | none =>
          -- volatility filter (`last_atr_value / price`, f64 in the source)
          let vol_pct := s1.last_atr_value / tick.price
          if vol_pct < s1.min_volatility then (Signal.Hold, s1)
          else if tick.price < bb_lower ∧ s1.last_rsi_value < 30 ∧ obi > s1.obi_threshold then
            (Signal.Advice Side.Buy tick.price, s1)
          else (Signal.Hold, s1)
      | some pos =>
          -- trailing-stop ratchet
          let ratcheted := tick.price > pos.highest_price
          let pos' := if ratcheted then { pos with highest_price := tick.price } else pos
          let s2 := { s1 with position := some pos' }
          let trailing_stop_price := pos'.highest_price * (1 - s1.trailing_callback)
          if tick.price < trailing_stop_price then
            (Signal.Advice Side.Sell tick.price, s2)
          else if tick.price < pos'.entry_price * (99/100) then
            (Signal.Advice Side.Sell tick.price, s2)
          else if ratcheted then (Signal.StateChanged, s2)
          else (Signal.Hold, s2)

/-- Model of `update_position` (lines 236–238). -/
def RsiBollingerStrategy.update_position (s : RsiBollingerStrategy)
    (position : Option Position) : RsiBollingerStrategy :=
  { s with position := position }

/-- Feeding a list of ticks to the strategy in order, keeping the final state
(the engine's `run` loop restricted to the strategy's `on_tick` calls). -/
def RsiBollingerStrategy.runTicks (O : IndicatorOracle)
    (s : RsiBollingerStrategy) (ticks : List Ticker) : RsiBollingerStrategy :=
  ticks.foldl (fun st tick => (st.on_tick O tick).2) s

/-! ## The engine (`src/core/engine.rs`) -/

/-- The configuration fields of `AppConfig` read by `handle_signal`
(`order_size_usdt` is an `f64` in the source, converted with
`Decimal::from_f64(..).unwrap_or(10)`; it is modelled as the rational the
conversion yields). -/
structure EngineConfig where
  order_size_usdt : ℚ
  symbol_step_size : ℚ
  symbol_tick_size : ℚ
deriving Repr

/-- The argument tuple of an `ExecutionHandler::place_order` call:
`(symbol, side, quantity, Option<price>)`. -/
structure OrderRequest where
  symbol : String
  side : Side
  quantity : ℚ
  price : Option ℚ
deriving DecidableEq, Repr

/-- Observable outcome of one `TradingEngine::handle_signal` call.
`placedOrder` is the `place_order` call made, if any; `newPosition` is the
strategy's stored position after the call (`update_position` argument, or the
unchanged previous position); `savedState` is `some st` iff `save_state(st)`
was called.  The Rust function returns `Ok(())` on every path modelled here
(the only `?`-propagated failures are out-of-model I/O of the UI channel). -/
structure HandleResult where
  placedOrder : Option OrderRequest
  newPosition : Option Position
  savedState : Option (Option Position)
deriving DecidableEq, Repr

/-- Model of `TradingEngine::handle_signal` (lines 110–232).  `prevPos` is the
strategy's stored position before the call; `orderOutcome` is what
`place_order` returns if it is called (live mode only).  Mirrors the source:
raw-quantity computation, round-down normalization, the min-notional (`5.5`)
guard, the zero-quantity guard, paper-mode simulated fills, and the live-mode
slippage-priced IOC limit order whose failure leaves all state untouched. -/
def handle_signal (cfg : EngineConfig) (live_mode : Bool)
    (prevPos : Option Position) (orderOutcome : Except String OrderResponse)
    (side : Side) (current_price : ℚ) (ticker : Ticker) : HandleResult :=
  -- 1. raw quantity
  let order_usdt := cfg.order_size_usdt
  let raw_qty := order_usdt / current_price
  -- 2. quantity normalization (round down to the configured step)
  let step_size := cfg.symbol_step_size
  let quantity := precision.normalize_quantity raw_qty step_size
  -- 3. min-notional check (> $5.5)
  let notional_value := quantity * current_price
  let min_notional : ℚ := 55/10
  if notional_value < min_notional then
    { placedOrder := none, newPosition := prevPos, savedState := none }
  else if quantity = 0 then
    { placedOrder := none, newPosition := prevPos, savedState := none }
  else
    -- 4. price preparation
    let tick_size := cfg.symbol_tick_size
    let target_price := precision.normalize_price current_price tick_size
    if live_mode = false then
      -- PAPER MODE: simulated fill at the normalized current price
      let fake_pos : Option Position :=
        match side with
        | Side.Buy =>
            some { symbol := ticker.symbol
                   quantity := quantity
                   entry_price := target_price
                   unrealized_pnl := 0
                   highest_price := target_price }
        | Side.Sell => none
      { placedOrder := none, newPosition := fake_pos, savedState := some fake_pos }
    else
      -- LIVE MODE: aggressive limit price with 0.1% slippage, then place_order
      let slippage_pct : ℚ := 1/1000
      let execution_price_raw :=
        match side with
        | Side.Buy => current_price * (1 + slippage_pct)
        | Side.Sell => current_price * (1 - slippage_pct)
      let final_price := precision.normalize_price execution_price_raw tick_size
      let req : OrderRequest :=
        { symbol := ticker.symbol, side := side, quantity := quantity
          price := some final_price }
      match orderOutcome with
      | Except.ok _ =>
          match side with
          | Side.Buy =>
              let pos : Position :=
                { symbol := ticker.symbol
                  quantity := quantity
                  entry_price := final_price
                  unrealized_pnl := 0
                  highest_price := final_price }
              { placedOrder := some req, newPosition := some pos
                savedState := some (some pos) }
          | Side.Sell =>
              { placedOrder := some req, newPosition := none
                savedState := some none }
      | Except.error _ =>
          { placedOrder := some req, newPosition := prevPos, savedState := none }

/-! ### Concrete fixtures used by the witnesses -/

/-- A constant indicator oracle used to instantiate witnesses. -/
def zeroOracle : IndicatorOracle :=
  ⟨fun _ => 0, fun _ => 0, fun _ => (0, 0, 0)⟩

/-- A warmed-up strategy state with an open position: entry 100, trailing
high 110, 50 candles processed, Bollinger values present. -/
def openStateC : RsiBollingerStrategy :=
  { RsiBollingerStrategy.new "B" 0 0 with
    position := some ⟨"B", 1, 100, 0, 110⟩
    processed_candles := 50
    last_bb_values := some (0, 0, 0)
    current_candle := some ⟨0, 100, 100, 100, 100⟩ }

/-- A tick at price 109.7 in the open candle's minute bucket. -/
def tickC : Ticker := ⟨"B", 1097/10, 0, 0, 0, 0, 0⟩

/-! ## Theorems -/

/-- Banker's rounding is a round-to-nearest: it never strays more than `1/2`
from its argument. -/
theorem abs_roundHalfEven_sub_le (x : ℚ) : |(roundHalfEven x : ℚ) - x| ≤ 1/2 := by
  unfold roundHalfEven
  have hfl : (⌊x⌋ : ℚ) ≤ x := Int.floor_le x
  have hfu : x < (⌊x⌋ : ℚ) + 1 := Int.lt_floor_add_one x
  by_cases h1 : x - (⌊x⌋ : ℚ) < 1/2
  · simp only [h1, if_true]
    rw [abs_sub_comm, abs_of_nonneg (by linarith)]
    linarith
  · simp only [h1, if_false]
    by_cases h2 : (1:ℚ)/2 < x - (⌊x⌋ : ℚ)
    · simp only [h2, if_true]
      push_cast
      rw [abs_of_nonneg (by linarith)]
      linarith
    · simp only [h2, if_false]
      have heq : x - (⌊x⌋ : ℚ) = 1/2 := le_antisymm (not_lt.mp h2) (not_lt.mp h1)
      by_cases h3 : Even ⌊x⌋
      · simp only [h3, if_true]
        rw [abs_sub_comm, abs_of_nonneg (by linarith)]
        linarith
      · simp only [h3, if_false]
        push_cast
        rw [abs_of_nonneg (by linarith)]
        linarith

/-- Rounding down to a multiple of a positive step never exceeds the input and
misses it by less than one step. -/
theorem floor_mul_bounds (x step : ℚ) (hstep : 0 < step) :
    x - step < (⌊x / step⌋ : ℚ) * step ∧ (⌊x / step⌋ : ℚ) * step ≤ x := by
  constructor
  · have h := Int.lt_floor_add_one (x / step)
    have h2 := (div_lt_iff₀ hstep).mp h
    nlinarith
  · have h := Int.floor_le (x / step)
    calc (⌊x / step⌋ : ℚ) * step ≤ (x / step) * step :=
          mul_le_mul_of_nonneg_right h (le_of_lt hstep)
    _ = x := div_mul_cancel₀ x (ne_of_gt hstep)

/-- C7: quantity normalization is idempotent and monotonically non-increasing:
for every non-negative amount and positive step,
`normalize_quantity (normalize_quantity x step) step = normalize_quantity x step`
and `normalize_quantity x step ≤ x`; the `BinanceClient` implementation agrees
with the utility on positive steps. -/
theorem normalize_quantity_idempotent_nonincreasing (x step : ℚ)
    (hstep : 0 < step) (hx : 0 ≤ x) :
    precision.normalize_quantity (precision.normalize_quantity x step) step
        = precision.normalize_quantity x step
    ∧ precision.normalize_quantity x step ≤ x
    ∧ BinanceClient.normalize_quantity step x = precision.normalize_quantity x step := by
  have hne : step ≠ 0 := ne_of_gt hstep
  unfold precision.normalize_quantity BinanceClient.normalize_quantity
  simp only [hne, if_false, if_neg hne]
  refine ⟨?_, ?_, by trivial⟩
  · rw [mul_div_assoc, div_self hne, mul_one, Int.floor_intCast]
  · exact (floor_mul_bounds x step hstep).2

/-- Witness for C7 at `x = 10999/1000`, `step = 1`. -/
theorem normalize_quantity_idempotent_nonincreasing_witness :
    (0:ℚ) < 1 ∧ (0:ℚ) ≤ 10999/1000 ∧
      (precision.normalize_quantity (precision.normalize_quantity (10999/1000) 1) 1
          = precision.normalize_quantity (10999/1000) 1
        ∧ precision.normalize_quantity (10999/1000) 1 ≤ 10999/1000
        ∧ BinanceClient.normalize_quantity 1 (10999/1000)
            = precision.normalize_quantity (10999/1000) 1) :=
  ⟨by norm_num, by norm_num,
    normalize_quantity_idempotent_nonincreasing (10999/1000) 1 (by norm_num) (by norm_num)⟩

/-- C6 counterexample: `BinanceClient::normalize_price` (one of the two price
normalizers in the program) rounds DOWN, so at tick size `0.1` and price `0.07`
it returns `0`, which is `0.07 > 0.05 = t/2` away from the input — the
round-to-nearest bound fails for it. -/
theorem binance_normalize_price_not_round_nearest :
    ¬ |BinanceClient.normalize_price (1/10) (7/100) - 7/100| ≤ (1/10) / 2 := by
  norm_num [BinanceClient.normalize_price]
  rw [abs_of_pos] <;> norm_num

/-- C6 amended: the engine's price normalization
(`utils::precision::normalize_price`, the one `handle_signal` uses) rounds to
nearest — `|normalize_price p t - p| ≤ t/2` for every positive tick size, with
ties resolved consistently (half-to-even) — while `BinanceClient::normalize_price`
instead rounds down to a multiple of the tick size, guaranteeing only
`p - t < result ≤ p`. -/
theorem normalize_price_round_nearest_amended (p t : ℚ) (ht : 0 < t) :
    |precision.normalize_price p t - p| ≤ t / 2
    ∧ p - t < BinanceClient.normalize_price t p
    ∧ BinanceClient.normalize_price t p ≤ p := by
  have hne : t ≠ 0 := ne_of_gt ht
  refine ⟨?_, ?_, ?_⟩
  · unfold precision.normalize_price
    rw [if_neg hne]
    have hrw : (roundHalfEven (p / t) : ℚ) * t - p
        = ((roundHalfEven (p / t) : ℚ) - p / t) * t := by
      field_simp
    rw [hrw, abs_mul, abs_of_pos ht]
    have hb := abs_roundHalfEven_sub_le (p / t)
    calc |(roundHalfEven (p / t) : ℚ) - p / t| * t ≤ (1/2) * t :=
          mul_le_mul_of_nonneg_right hb (le_of_lt ht)
    _ = t / 2 := by ring
  · unfold BinanceClient.normalize_price
    rw [if_neg hne]
    exact (floor_mul_bounds p t ht).1
  · unfold BinanceClient.normalize_price
    rw [if_neg hne]
    exact (floor_mul_bounds p t ht).2

/-- Witness for the amended C6 at `p = 0.07`, `t = 0.1`. -/
theorem normalize_price_round_nearest_amended_witness :
    (0:ℚ) < 1/10 ∧
      (|precision.normalize_price (7/100) (1/10) - 7/100| ≤ (1/10) / 2
        ∧ (7/100 : ℚ) - 1/10 < BinanceClient.normalize_price (1/10) (7/100)
        ∧ BinanceClient.normalize_price (1/10) (7/100) ≤ 7/100) :=
  ⟨by norm_num, normalize_price_round_nearest_amended (7/100) (1/10) (by norm_num)⟩

/-- C5: if the normalized quantity is zero or the notional is below the `5.5`
floor, `handle_signal` returns without placing an order and without touching
the stored position or the persisted state (in either mode, whatever the
order outcome would have been). -/
theorem handle_signal_precision_abort (cfg : EngineConfig) (live_mode : Bool)
    (prevPos : Option Position) (outcome : Except String OrderResponse)
    (side : Side) (p : ℚ) (tk : Ticker)
    (h : precision.normalize_quantity (cfg.order_size_usdt / p) cfg.symbol_step_size = 0
      ∨ precision.normalize_quantity (cfg.order_size_usdt / p) cfg.symbol_step_size * p
          < 55/10) :
    handle_signal cfg live_mode prevPos outcome side p tk
      = { placedOrder := none, newPosition := prevPos, savedState := none } := by
  rcases h with h0 | hlt
  · simp only [handle_signal, h0]
    norm_num
  · simp only [handle_signal]
    rw [if_pos hlt]

/-- Witness for C5: concrete scenario A — `step = 0.001`, `budget = 10`,
`price = 50,000` gives raw quantity `0.0002`, normalized quantity `0`,
so no order and no state change. -/
theorem handle_signal_precision_abort_witness :
    (precision.normalize_quantity ((10:ℚ) / 50000) (1/1000) = 0
      ∨ precision.normalize_quantity ((10:ℚ) / 50000) (1/1000) * 50000 < 55/10)
    ∧ handle_signal ⟨10, 1/1000, 1/10⟩ true none (Except.error "net") Side.Buy 50000
        ⟨"BTCUSDT", 50000, 0, 0, 0, 0, 0⟩
      = { placedOrder := none, newPosition := none, savedState := none } :=
  ⟨Or.inl (by norm_num [precision.normalize_quantity]),
    handle_signal_precision_abort ⟨10, 1/1000, 1/10⟩ true none (Except.error "net")
      Side.Buy 50000 ⟨"BTCUSDT", 50000, 0, 0, 0, 0, 0⟩
      (Or.inl (by norm_num [precision.normalize_quantity]))⟩

/-- C9: every order `handle_signal` submits in live mode carries the
slippage-adjusted, tick-normalized limit price: `normalize_price(p * (1 + 0.001))`
for buys and `normalize_price(p * (1 - 0.001))` for sells; concretely, a buy at
reference price `50,000` with tick size `0.1` is priced exactly `50,050`. -/
theorem handle_signal_slippage_price (cfg : EngineConfig) (prevPos : Option Position)
    (outcome : Except String OrderResponse) (side : Side) (p : ℚ) (tk : Ticker)
    (req : OrderRequest)
    (h : (handle_signal cfg true prevPos outcome side p tk).placedOrder = some req) :
    (side = Side.Buy →
        req.price = some (precision.normalize_price (p * (1 + 1/1000)) cfg.symbol_tick_size))
    ∧ (side = Side.Sell →
        req.price = some (precision.normalize_price (p * (1 - 1/1000)) cfg.symbol_tick_size))
    ∧ precision.normalize_price (50000 * (1 + 1/1000)) (1/10) = 50050 := by
  refine ⟨?_, ?_, ?_⟩
  · intro hside
    subst hside
    simp only [handle_signal] at h
    split at h
    · simp at h
    · split at h
      · simp at h
      · cases outcome <;> (simp_all; rw [← h])
  · intro hside
    subst hside
    simp only [handle_signal] at h
    split at h
    · simp at h
    · split at h
      · simp at h
      · cases outcome <;> (simp_all; rw [← h])
  · norm_num [precision.normalize_price, roundHalfEven]

/-- Witness for C9: concrete scenario B — budget 1000, step 0.001, tick 0.1,
price 50,000: the placed buy order carries quantity `0.02` and limit price
`50,050`. -/
theorem handle_signal_slippage_price_witness :
    (handle_signal ⟨1000, 1/1000, 1/10⟩ true none
        (Except.ok ⟨"1", "BTCUSDT", "FILLED"⟩) Side.Buy 50000
        ⟨"BTCUSDT", 50000, 0, 0, 0, 0, 0⟩).placedOrder
      = some ⟨"BTCUSDT", Side.Buy, 1/50, some 50050⟩
    ∧ ((Side.Buy = Side.Buy →
          (OrderRequest.price ⟨"BTCUSDT", Side.Buy, 1/50, some 50050⟩)
            = some (precision.normalize_price ((50000:ℚ) * (1 + 1/1000)) (1/10)))
      ∧ (Side.Buy = Side.Sell →
          (OrderRequest.price ⟨"BTCUSDT", Side.Buy, 1/50, some 50050⟩)
            = some (precision.normalize_price ((50000:ℚ) * (1 - 1/1000)) (1/10)))
      ∧ precision.normalize_price (50000 * (1 + 1/1000)) (1/10) = 50050) := by
  have hp : (handle_signal ⟨1000, 1/1000, 1/10⟩ true none
        (Except.ok ⟨"1", "BTCUSDT", "FILLED"⟩) Side.Buy 50000
        ⟨"BTCUSDT", 50000, 0, 0, 0, 0, 0⟩).placedOrder
      = some ⟨"BTCUSDT", Side.Buy, 1/50, some 50050⟩ := by
    norm_num [handle_signal, precision.normalize_quantity, precision.normalize_price,
      roundHalfEven]
  exact ⟨hp, handle_signal_slippage_price ⟨1000, 1/1000, 1/10⟩ none
    (Except.ok ⟨"1", "BTCUSDT", "FILLED"⟩) Side.Buy 50000
    ⟨"BTCUSDT", 50000, 0, 0, 0, 0, 0⟩ ⟨"BTCUSDT", Side.Buy, 1/50, some 50050⟩ hp⟩

/-- C1: in live mode, a failed `place_order` (any non-filled outcome, surfaced
as an error) leaves the stored position unchanged and saves no state; when no
order is placed at all the state is likewise untouched; and the position is
created (on Buy) or cleared (on Sell) — with the matching state save — only
when `place_order` returned success. -/
theorem handle_signal_fill_gated_position (cfg : EngineConfig)
    (prevPos : Option Position) (side : Side) (p : ℚ) (tk : Ticker) :
    (∀ err : String,
        (handle_signal cfg true prevPos (Except.error err) side p tk).newPosition = prevPos
        ∧ (handle_signal cfg true prevPos (Except.error err) side p tk).savedState = none)
    ∧ (∀ outcome : Except String OrderResponse,
        (handle_signal cfg true prevPos outcome side p tk).placedOrder = none →
        (handle_signal cfg true prevPos outcome side p tk).newPosition = prevPos
        ∧ (handle_signal cfg true prevPos outcome side p tk).savedState = none)
    ∧ (∀ resp : OrderResponse,
        (handle_signal cfg true prevPos (Except.ok resp) side p tk).placedOrder.isSome →
        (side = Side.Buy → ∃ pos : Position,
            (handle_signal cfg true prevPos (Except.ok resp) side p tk).newPosition
              = some pos
            ∧ (handle_signal cfg true prevPos (Except.ok resp) side p tk).savedState
              = some (some pos))
        ∧ (side = Side.Sell →
            (handle_signal cfg true prevPos (Except.ok resp) side p tk).newPosition = none
            ∧ (handle_signal cfg true prevPos (Except.ok resp) side p tk).savedState
              = some none)) := by
  refine ⟨?_, ?_, ?_⟩
  · intro err
    simp only [handle_signal]
    split
    · exact ⟨rfl, rfl⟩
    · split
      · exact ⟨rfl, rfl⟩
      · cases side <;> simp
  · intro outcome hnone
    simp only [handle_signal] at hnone ⊢
    split at hnone <;> split
    · exact ⟨rfl, rfl⟩
    · simp_all
    · simp_all
    · split at hnone <;> split
      · exact ⟨rfl, rfl⟩
      · simp_all
      · simp_all
      · cases outcome <;> cases side <;> simp_all
  · intro resp hsome
    constructor
    · intro hbuy
      subst hbuy
      simp only [handle_signal] at hsome ⊢
      split at hsome <;> split
      · simp_all
      · simp_all
      · simp_all
      · split at hsome <;> split
        · simp_all
        · simp_all
        · simp_all
        · simp
    · intro hsell
      subst hsell
      simp only [handle_signal] at hsome ⊢
      split at hsome <;> split
      · simp_all
      · simp_all
      · simp_all
      · split at hsome <;> split
        · simp_all
        · simp_all
        · simp_all
        · simp

/-- Witness for C1: at budget 1000, step 0.001, tick 0.1, price 50,000, a
failed buy leaves the previously stored position in place and saves nothing,
while a filled buy stores and saves a new position. -/
theorem handle_signal_fill_gated_position_witness :
    ((handle_signal ⟨1000, 1/1000, 1/10⟩ true (some ⟨"BTCUSDT", 1, 100, 0, 110⟩)
        (Except.error "net") Side.Buy 50000
        ⟨"BTCUSDT", 50000, 0, 0, 0, 0, 0⟩).newPosition = some ⟨"BTCUSDT", 1, 100, 0, 110⟩
      ∧ (handle_signal ⟨1000, 1/1000, 1/10⟩ true (some ⟨"BTCUSDT", 1, 100, 0, 110⟩)
          (Except.error "net") Side.Buy 50000
          ⟨"BTCUSDT", 50000, 0, 0, 0, 0, 0⟩).savedState = none)
    ∧ (∃ pos : Position,
        (handle_signal ⟨1000, 1/1000, 1/10⟩ true (some ⟨"BTCUSDT", 1, 100, 0, 110⟩)
            (Except.ok ⟨"1", "BTCUSDT", "FILLED"⟩) Side.Buy 50000
            ⟨"BTCUSDT", 50000, 0, 0, 0, 0, 0⟩).newPosition = some pos
        ∧ (handle_signal ⟨1000, 1/1000, 1/10⟩ true (some ⟨"BTCUSDT", 1, 100, 0, 110⟩)
            (Except.ok ⟨"1", "BTCUSDT", "FILLED"⟩) Side.Buy 50000
            ⟨"BTCUSDT", 50000, 0, 0, 0, 0, 0⟩).savedState = some (some pos)) := by
  obtain ⟨h1, h2, h3⟩ := handle_signal_fill_gated_position ⟨1000, 1/1000, 1/10⟩
    (some ⟨"BTCUSDT", 1, 100, 0, 110⟩) Side.Buy 50000 ⟨"BTCUSDT", 50000, 0, 0, 0, 0, 0⟩
  have hsome : (handle_signal ⟨1000, 1/1000, 1/10⟩ true (some ⟨"BTCUSDT", 1, 100, 0, 110⟩)
      (Except.ok ⟨"1", "BTCUSDT", "FILLED"⟩) Side.Buy 50000
      ⟨"BTCUSDT", 50000, 0, 0, 0, 0, 0⟩).placedOrder.isSome := by
    norm_num [handle_signal, precision.normalize_quantity, Option.isSome]
  exact ⟨h1 "net", (h3 ⟨"1", "BTCUSDT", "FILLED"⟩ hsome).1 rfl⟩


/-- The candle phase of `on_tick` touches only the candle/indicator fields:
the stored position and the strategy parameters pass through unchanged. -/
theorem candlePhase_preserves (O : IndicatorOracle) (s : RsiBollingerStrategy)
    (tick : Ticker) :
    (s.candlePhase O tick).position = s.position
    ∧ (s.candlePhase O tick).warmup_period = s.warmup_period
    ∧ (s.candlePhase O tick).obi_threshold = s.obi_threshold
    ∧ (s.candlePhase O tick).min_volatility = s.min_volatility
    ∧ (s.candlePhase O tick).trailing_callback = s.trailing_callback := by
  cases hcc : s.current_candle with
  | none =>
      simp [RsiBollingerStrategy.candlePhase, hcc]
  | some c =>
      by_cases hb : bucketStart tick.timestamp > c.open_time <;>
        simp [RsiBollingerStrategy.candlePhase, RsiBollingerStrategy.close_candle, hcc, hb]

/-- Lemma: `on_tick` either leaves the stored position untouched (warm-up, missing
indicators, or the flat branch) or — exactly when a position is open and the
decision logic runs — replaces it by the same position with its trailing high
ratcheted to `max highest_price tick.price`. -/
theorem on_tick_position_cases (O : IndicatorOracle) (s : RsiBollingerStrategy)
    (tick : Ticker) :
    ((s.on_tick O tick).2).position = s.position
    ∨ ∃ pos : Position, s.position = some pos
        ∧ ((s.on_tick O tick).2).position
            = some { pos with highest_price := max pos.highest_price tick.price } := by
  have hcp := (candlePhase_preserves O s tick).1
  simp only [RsiBollingerStrategy.on_tick]
  split
  · exact Or.inl hcp
  · split
    · exact Or.inl hcp
    · split
      · refine Or.inl ?_
        repeat' split
        all_goals exact hcp
      · rename_i pos1 heq
        refine Or.inr ⟨pos1, by rw [← hcp, heq], ?_⟩
        have hratchet :
            (if tick.price > pos1.highest_price
              then { pos1 with highest_price := tick.price } else pos1)
            = { pos1 with highest_price := max pos1.highest_price tick.price } := by
          by_cases hr : tick.price > pos1.highest_price
          · simp only [hr, if_true]
            rw [max_eq_right (le_of_lt hr)]
          · simp only [hr, if_false]
            rw [max_eq_left (le_of_not_lt hr)]
        rw [hratchet]
        repeat' split
        all_goals rfl

/-- C10: every position value the engine itself constructs (paper-mode and
live-mode buy branches alike) carries `unrealized_pnl = 0`, and the strategy's
`on_tick` never rewrites the field, so a position created by the engine keeps
`unrealized_pnl = 0` for its lifetime. -/
theorem position_unrealized_pnl_zero :
    (∀ (cfg : EngineConfig) (live_mode : Bool) (prevPos : Option Position)
        (outcome : Except String OrderResponse) (side : Side) (p : ℚ) (tk : Ticker)
        (pos : Position),
        (handle_signal cfg live_mode prevPos outcome side p tk).newPosition = some pos →
        prevPos = some pos ∨ pos.unrealized_pnl = 0)
    ∧ (∀ (O : IndicatorOracle) (s : RsiBollingerStrategy) (tick : Ticker)
        (pos pos' : Position),
        s.position = some pos →
        ((s.on_tick O tick).2).position = some pos' →
        pos'.unrealized_pnl = pos.unrealized_pnl) := by
  constructor
  · intro cfg live_mode prevPos outcome side p tk pos h
    simp only [handle_signal] at h
    split at h
    · exact Or.inl h
    · split at h
      · exact Or.inl h
      · split at h
        · cases side with
          | Buy =>
              simp only [Option.some.injEq] at h
              exact Or.inr (by rw [← h])
          | Sell => simp at h
        · cases outcome with
          | ok resp =>
              cases side with
              | Buy =>
                  simp only [Option.some.injEq] at h
                  exact Or.inr (by rw [← h])
              | Sell => simp at h
          | error e => exact Or.inl h
  · intro O s tick pos pos' hpos h
    rcases on_tick_position_cases O s tick with hsame | ⟨pos0, hpos0, hset⟩
    · rw [hsame, hpos] at h
      cases h
      rfl
    · rw [hpos] at hpos0
      cases hpos0
      rw [hset] at h
      cases h
      rfl

/-- Witness for C10: the paper-mode buy at price 50,000 stores a position with
`unrealized_pnl = 0`, and an `on_tick` call on an open position (here during
warm-up) leaves the field untouched. -/
theorem position_unrealized_pnl_zero_witness :
    ((handle_signal ⟨1000, 1/1000, 1/10⟩ false none (Except.error "x") Side.Buy 50000
          ⟨"BTCUSDT", 50000, 0, 0, 0, 0, 0⟩).newPosition
        = some ⟨"BTCUSDT", 1/50, 50000, 0, 50000⟩
      ∧ (none = some (⟨"BTCUSDT", 1/50, 50000, 0, 50000⟩ : Position)
          ∨ (⟨"BTCUSDT", 1/50, 50000, 0, 50000⟩ : Position).unrealized_pnl = 0))
    ∧ Position.unrealized_pnl ⟨"B", 1, 100, 0, 110⟩
        = Position.unrealized_pnl ⟨"B", 1, 100, 0, 110⟩ := by
  have hn : (handle_signal ⟨1000, 1/1000, 1/10⟩ false none (Except.error "x") Side.Buy 50000
      ⟨"BTCUSDT", 50000, 0, 0, 0, 0, 0⟩).newPosition
      = some ⟨"BTCUSDT", 1/50, 50000, 0, 50000⟩ := by
    norm_num [handle_signal, precision.normalize_quantity, precision.normalize_price,
      roundHalfEven]
  refine ⟨⟨hn, position_unrealized_pnl_zero.1 ⟨1000, 1/1000, 1/10⟩ false none
    (Except.error "x") Side.Buy 50000 ⟨"BTCUSDT", 50000, 0, 0, 0, 0, 0⟩
    ⟨"BTCUSDT", 1/50, 50000, 0, 50000⟩ hn⟩, ?_⟩
  exact position_unrealized_pnl_zero.2
    ⟨fun _ => 0, fun _ => 0, fun _ => (0, 0, 0)⟩
    { RsiBollingerStrategy.new "B" 0 0 with position := some ⟨"B", 1, 100, 0, 110⟩ }
    ⟨"B", 1097/10, 0, 0, 0, 0, 0⟩ ⟨"B", 1, 100, 0, 110⟩ ⟨"B", 1, 100, 0, 110⟩ rfl rfl

/-- C2: the warm-up gate — whenever, at decision time (i.e. after the tick's
candle logic has run), fewer than `warmup_period` candles have been processed,
`on_tick` returns `Hold`, regardless of the tick's price, the order-book
quantities, and whether a position is open. -/
theorem on_tick_warmup_hold (O : IndicatorOracle) (s : RsiBollingerStrategy)
    (tick : Ticker)
    (h : (s.candlePhase O tick).processed_candles < (s.candlePhase O tick).warmup_period) :
    (s.on_tick O tick).1 = Signal.Hold := by
  simp only [RsiBollingerStrategy.on_tick]
  rw [if_pos h]

/-- Witness for C2: a fresh strategy (0 processed candles, warm-up target 50)
holds on its first tick even with an open position and an extreme price. -/
theorem on_tick_warmup_hold_witness :
    ((RsiBollingerStrategy.candlePhase ⟨fun _ => 0, fun _ => 0, fun _ => (0, 0, 0)⟩
        { RsiBollingerStrategy.new "B" 0 0 with position := some ⟨"B", 1, 100, 0, 110⟩ }
        ⟨"B", 1, 2, 3, 4, 5, 0⟩).processed_candles
      < (RsiBollingerStrategy.candlePhase ⟨fun _ => 0, fun _ => 0, fun _ => (0, 0, 0)⟩
        { RsiBollingerStrategy.new "B" 0 0 with position := some ⟨"B", 1, 100, 0, 110⟩ }
        ⟨"B", 1, 2, 3, 4, 5, 0⟩).warmup_period)
    ∧ (RsiBollingerStrategy.on_tick ⟨fun _ => 0, fun _ => 0, fun _ => (0, 0, 0)⟩
        { RsiBollingerStrategy.new "B" 0 0 with position := some ⟨"B", 1, 100, 0, 110⟩ }
        ⟨"B", 1, 2, 3, 4, 5, 0⟩).1 = Signal.Hold :=
  ⟨by decide, on_tick_warmup_hold ⟨fun _ => 0, fun _ => 0, fun _ => (0, 0, 0)⟩
    { RsiBollingerStrategy.new "B" 0 0 with position := some ⟨"B", 1, 100, 0, 110⟩ }
    ⟨"B", 1, 2, 3, 4, 5, 0⟩ (by decide)⟩

/-- C4: the trailing-high ratchet is monotone — whenever `on_tick` runs with an
open position, the position afterwards is still stored and its `highest_price`
has not decreased; when the open-position logic runs it is set to
`max highest_price tick.price`. -/
theorem on_tick_trailing_high_ratchet (O : IndicatorOracle)
    (s : RsiBollingerStrategy) (tick : Ticker) (pos : Position)
    (h : s.position = some pos) :
    ∃ pos' : Position, ((s.on_tick O tick).2).position = some pos'
      ∧ pos.highest_price ≤ pos'.highest_price
      ∧ (pos' = pos
        ∨ pos' = { pos with highest_price := max pos.highest_price tick.price }) := by
  rcases on_tick_position_cases O s tick with hsame | ⟨pos0, hpos0, hset⟩
  · exact ⟨pos, by rw [hsame, h], le_refl _, Or.inl rfl⟩
  · rw [h] at hpos0
    cases hpos0
    exact ⟨_, hset, le_max_left _ _, Or.inr rfl⟩

/-- Witness for C4: with an open position (entry 100, trailing high 110) past
warm-up, a tick at 115 ratchets the stored high to `max 110 115 = 115`. -/
theorem on_tick_trailing_high_ratchet_witness :
    ({ RsiBollingerStrategy.new "B" 0 0 with
        position := some ⟨"B", 1, 100, 0, 110⟩
        processed_candles := 50
        last_bb_values := some (0, 0, 0)
        current_candle := some ⟨0, 100, 100, 100, 100⟩ } :
          RsiBollingerStrategy).position = some ⟨"B", 1, 100, 0, 110⟩
    ∧ ∃ pos' : Position,
        ((RsiBollingerStrategy.on_tick ⟨fun _ => 0, fun _ => 0, fun _ => (0, 0, 0)⟩
            { RsiBollingerStrategy.new "B" 0 0 with
              position := some ⟨"B", 1, 100, 0, 110⟩
              processed_candles := 50
              last_bb_values := some (0, 0, 0)
              current_candle := some ⟨0, 100, 100, 100, 100⟩ }
            ⟨"B", 115, 0, 0, 0, 0, 0⟩).2).position = some pos'
        ∧ (Position.highest_price ⟨"B", 1, 100, 0, 110⟩) ≤ pos'.highest_price
        ∧ (pos' = ⟨"B", 1, 100, 0, 110⟩
          ∨ pos' = { (⟨"B", 1, 100, 0, 110⟩ : Position) with
              highest_price := max (Position.highest_price ⟨"B", 1, 100, 0, 110⟩)
                (Ticker.price ⟨"B", 115, 0, 0, 0, 0, 0⟩) }) :=
  ⟨rfl, on_tick_trailing_high_ratchet ⟨fun _ => 0, fun _ => 0, fun _ => (0, 0, 0)⟩
    { RsiBollingerStrategy.new "B" 0 0 with
      position := some ⟨"B", 1, 100, 0, 110⟩
      processed_candles := 50
      last_bb_values := some (0, 0, 0)
      current_candle := some ⟨0, 100, 100, 100, 100⟩ }
    ⟨"B", 115, 0, 0, 0, 0, 0⟩ ⟨"B", 1, 100, 0, 110⟩ rfl⟩

/-- C3: exit priority in the open state with warm indicators — after the
trailing-high ratchet, if the price has fallen below
`highest * (1 - trailingCallback)` the tick yields `Advice(Sell, price)`; and
when the trailing stop does not fire but the hard stop
`price < entry * 0.99` does, the tick likewise yields `Advice(Sell, price)`. -/
theorem on_tick_exit_priority (O : IndicatorOracle) (s : RsiBollingerStrategy)
    (tick : Ticker) (pos : Position) (bb : ℚ × ℚ × ℚ)
    (hwarm : ¬ (s.candlePhase O tick).processed_candles
        < (s.candlePhase O tick).warmup_period)
    (hbb : (s.candlePhase O tick).last_bb_values = some bb)
    (hpos : (s.candlePhase O tick).position = some pos) :
    (tick.price < max pos.highest_price tick.price
          * (1 - (s.candlePhase O tick).trailing_callback) →
      (s.on_tick O tick).1 = Signal.Advice Side.Sell tick.price)
    ∧ (¬ tick.price < max pos.highest_price tick.price
          * (1 - (s.candlePhase O tick).trailing_callback) →
      tick.price < pos.entry_price * (99/100) →
      (s.on_tick O tick).1 = Signal.Advice Side.Sell tick.price) := by
  have hratchet :
      (if tick.price > pos.highest_price
        then { pos with highest_price := tick.price } else pos)
      = { pos with highest_price := max pos.highest_price tick.price } := by
    by_cases hr : tick.price > pos.highest_price
    · simp only [hr, if_true]
      rw [max_eq_right (le_of_lt hr)]
    · simp only [hr, if_false]
      rw [max_eq_left (le_of_not_lt hr)]
  simp only [RsiBollingerStrategy.on_tick, hwarm, hbb, hpos, hratchet, if_false]
  constructor
  · intro ht
    rw [if_pos ht]
  · intro ht hh
    rw [if_neg ht, if_pos hh]


/-- Witness for C3: concrete scenario C — entry 100, trailing high 110,
callback 0.2%: a tick at 109.7 (< 110 · 0.998 = 109.78) fires
`Advice(Sell, 109.7)`. -/
theorem on_tick_exit_priority_witness :
    (RsiBollingerStrategy.on_tick zeroOracle openStateC tickC).1
      = Signal.Advice Side.Sell (1097/10) := by
  have hcp : RsiBollingerStrategy.candlePhase zeroOracle openStateC tickC
      = { openStateC with current_candle := some ⟨0, 100, 1097/10, 100, 1097/10⟩ } := by
    norm_num [RsiBollingerStrategy.candlePhase, bucketStart, CandleBuilder.update,
      openStateC, tickC]
  have h := (on_tick_exit_priority zeroOracle openStateC tickC
    ⟨"B", 1, 100, 0, 110⟩ (0, 0, 0)
    (by rw [hcp]; decide)
    (by rw [hcp]; rfl)
    (by rw [hcp]; rfl)).1
    (by
      rw [hcp]
      show (1097/10 : ℚ) < max (110:ℚ) (1097/10)
        * (1 - ({ openStateC with
            current_candle := some ⟨0, 100, 1097/10, 100, 1097/10⟩ } :
              RsiBollingerStrategy).trailing_callback)
      rw [max_eq_left (by norm_num : (1097/10:ℚ) ≤ 110)]
      norm_num [openStateC, RsiBollingerStrategy.new])
  exact h

/-- Minute buckets are monotone in the timestamp. -/
theorem bucketStart_mono {a c : ℕ} (h : a ≤ c) : bucketStart a ≤ bucketStart c :=
  Nat.mul_le_mul_right _ (Nat.div_le_div_right h)

/-- Merging a tick into a live candle widens the high/low range to cover the
tick and leaves the bucket start and the open unchanged. -/
theorem update_facts (b : CandleBuilder) (t : Ticker) :
    b.high ≤ (b.update t).high ∧ (b.update t).low ≤ b.low
    ∧ t.price ≤ (b.update t).high ∧ (b.update t).low ≤ t.price
    ∧ (b.update t).open_time = b.open_time ∧ (b.update t).open_ = b.open_ := by
  refine ⟨?_, ?_, ?_, ?_, rfl, rfl⟩ <;> simp only [CandleBuilder.update]
  · split
    · exact le_of_lt ‹_›
    · exact le_refl _
  · split
    · exact le_of_lt ‹_›
    · exact le_refl _
  · split
    · exact le_refl _
    · exact le_of_not_lt ‹_›
  · split
    · exact le_refl _
    · exact le_of_not_lt ‹_›

/-- The candle phase of `on_tick` is exactly `candleStep` on the candle fields:
the live candle follows the step and the closed-candle list grows by the
candle the step emits. -/
theorem candlePhase_candle_fields (O : IndicatorOracle) (s : RsiBollingerStrategy)
    (tick : Ticker) :
    (s.candlePhase O tick).current_candle = (candleStep s.current_candle tick).1
    ∧ (s.candlePhase O tick).closed_candles
        = s.closed_candles ++ ((candleStep s.current_candle tick).2).toList := by
  cases hcc : s.current_candle with
  | none =>
      simp [RsiBollingerStrategy.candlePhase, candleStep, hcc]
  | some c =>
      by_cases hb : bucketStart tick.timestamp > c.open_time <;>
        simp [RsiBollingerStrategy.candlePhase, RsiBollingerStrategy.close_candle,
          candleStep, hcc, hb]

/-- The decision phase of `on_tick` never touches the candle fields. -/
theorem on_tick_state_candle (O : IndicatorOracle) (s : RsiBollingerStrategy)
    (tick : Ticker) :
    ((s.on_tick O tick).2).current_candle = (s.candlePhase O tick).current_candle
    ∧ ((s.on_tick O tick).2).closed_candles = (s.candlePhase O tick).closed_candles := by
  constructor <;>
    · simp only [RsiBollingerStrategy.on_tick]
      repeat' split
      all_goals rfl

/-- Folding ticks through the full `on_tick` agrees, on the candle fields,
with the pure `runCandles` fold. -/
theorem runTicks_candle_fields (O : IndicatorOracle) (ticks : List Ticker) :
    ∀ s : RsiBollingerStrategy,
      (s.runTicks O ticks).current_candle = (runCandles s.current_candle ticks).1
      ∧ (s.runTicks O ticks).closed_candles
          = s.closed_candles ++ (runCandles s.current_candle ticks).2 := by
  induction ticks with
  | nil =>
      intro s
      simp [RsiBollingerStrategy.runTicks, runCandles]
  | cons t ts ih =>
      intro s
      obtain ⟨ih1, ih2⟩ := ih ((s.on_tick O t).2)
      obtain ⟨hs1, hs2⟩ := on_tick_state_candle O s t
      obtain ⟨hc1, hc2⟩ := candlePhase_candle_fields O s t
      have hrt : s.runTicks O (t :: ts) = ((s.on_tick O t).2).runTicks O ts := rfl
      constructor
      · rw [hrt, ih1, hs1, hc1]
        simp [runCandles]
      · rw [hrt, ih2, hs2, hc2, hs1, hc1]
        simp [runCandles, List.append_assoc]

/-- Invariant of the pure candle fold: every candle closed while folding a
timestamp-monotone tick list onto a live builder `b` bounds the ticks of its
bucket, and its open is `b`'s own open (for `b`'s bucket) or the first tick
price of a strictly later bucket. -/
theorem runCandles_closed_spec (ticks : List Ticker) :
    ∀ b : CandleBuilder,
    List.Pairwise (fun a c => a.timestamp ≤ c.timestamp) ticks →
    (∀ t ∈ ticks, b.open_time ≤ bucketStart t.timestamp) →
    ∀ c ∈ (runCandles (some b) ticks).2,
      (∀ t ∈ ticks, bucketStart t.timestamp = c.open_time →
          c.low ≤ t.price ∧ t.price ≤ c.high)
      ∧ ((c.open_time = b.open_time ∧ c.open_ = b.open_ ∧ b.high ≤ c.high ∧ c.low ≤ b.low)
        ∨ (b.open_time < c.open_time
          ∧ ((ticks.filter fun t => bucketStart t.timestamp == c.open_time).map
              Ticker.price).head? = some c.open_)) := by
  induction ticks with
  | nil =>
      intro b _ _ c hc
      simp [runCandles] at hc
  | cons t0 ts ih =>
      intro b hpair hge c hc
      obtain ⟨hhead, hpair'⟩ := List.pairwise_cons.mp hpair
      have hge0 : b.open_time ≤ bucketStart t0.timestamp := hge t0 (List.mem_cons_self _ _)
      by_cases hb : bucketStart t0.timestamp > b.open_time
      · -- the tick closes `b` and seeds a fresh builder
        have hrun : (runCandles (some b) (t0 :: ts)).2
            = b :: (runCandles (some (CandleBuilder.new t0)) ts).2 := by
          simp [runCandles, candleStep, hb]
        rw [hrun] at hc
        have hge' : ∀ t ∈ ts, (CandleBuilder.new t0).open_time ≤ bucketStart t.timestamp :=
          fun t ht => bucketStart_mono (hhead t ht)
        have hnew_time : (CandleBuilder.new t0).open_time = bucketStart t0.timestamp := rfl
        rcases List.mem_cons.mp hc with hcb | hcrest
        · subst hcb
          constructor
          · intro t ht hbk
            rcases List.mem_cons.mp ht with h0 | hts
            · subst h0
              exact absurd hbk (ne_of_gt hb)
            · have hmono := bucketStart_mono (hhead t hts)
              exact absurd hbk (ne_of_gt (lt_of_lt_of_le hb hmono))
          · exact Or.inl ⟨rfl, rfl, le_refl _, le_refl _⟩
        · obtain ⟨ihb, ihd⟩ := ih (CandleBuilder.new t0) hpair' hge' c hcrest
          constructor
          · intro t ht hbk
            rcases List.mem_cons.mp ht with h0 | hts
            · subst h0
              rcases ihd with ⟨hoeq, _, hh, hl⟩ | ⟨hlt, _⟩
              · exact ⟨hl, hh⟩
              · rw [hnew_time, hbk] at hlt
                exact absurd hlt (lt_irrefl _)
            · exact ihb t hts hbk
          · rcases ihd with ⟨hoeq, hopen, hh, hl⟩ | ⟨hlt, hfilter⟩
            · refine Or.inr ⟨?_, ?_⟩
              · rw [hoeq, hnew_time]
                exact hb
              · have hcond : (bucketStart t0.timestamp == c.open_time) = true := by
                  simp only [beq_iff_eq]
                  rw [hoeq]
                  exact hnew_time.symm
                simp [List.filter_cons, hcond, hopen, CandleBuilder.new]
            · refine Or.inr ⟨lt_of_le_of_lt hge0 (hnew_time ▸ hlt), ?_⟩
              have hne : (bucketStart t0.timestamp == c.open_time) = false := by
                rw [beq_eq_false_iff_ne]
                rw [hnew_time] at hlt
                exact ne_of_lt hlt
              simp only [List.filter_cons, hne, if_false, Bool.false_eq_true]
              exact hfilter
      · -- the tick merges into `b`
        have hbeq : bucketStart t0.timestamp = b.open_time :=
          le_antisymm (le_of_not_lt hb) hge0
        have hrun : (runCandles (some b) (t0 :: ts)).2
            = (runCandles (some (b.update t0)) ts).2 := by
          simp [runCandles, candleStep, hb]
        rw [hrun] at hc
        obtain ⟨hfh, hfl, hth, htl, hot, hoo⟩ := update_facts b t0
        have hge' : ∀ t ∈ ts, (b.update t0).open_time ≤ bucketStart t.timestamp := by
          intro t ht
          rw [hot]
          exact hge t (List.mem_cons_of_mem _ ht)
        obtain ⟨ihb, ihd⟩ := ih (b.update t0) hpair' hge' c hc
        constructor
        · intro t ht hbk
          rcases List.mem_cons.mp ht with h0 | hts
          · subst h0
            rcases ihd with ⟨hoeq, _, hh, hl⟩ | ⟨hlt, _⟩
            · exact ⟨le_trans hl htl, le_trans hth hh⟩
            · rw [hot, ← hbeq, hbk] at hlt
              exact absurd hlt (lt_irrefl _)
          · exact ihb t hts hbk
        · rcases ihd with ⟨hoeq, hopen, hh, hl⟩ | ⟨hlt, hfilter⟩
          · exact Or.inl ⟨by rw [hoeq, hot], by rw [hopen, hoo],
              le_trans hfh hh, le_trans hl hfl⟩
          · refine Or.inr ⟨by rw [← hot]; exact hlt, ?_⟩
            have hne : (bucketStart t0.timestamp == c.open_time) = false := by
              rw [beq_eq_false_iff_ne, hbeq, ← hot]
              exact ne_of_lt hlt
            simp only [List.filter_cons, hne, if_false, Bool.false_eq_true]
            exact hfilter

/-- C8: candle aggregation correctness — folding any tick sequence with
non-decreasing timestamps through `on_tick` from a fresh strategy, every
closed candle's high/low bound the price of every tick of its minute bucket,
and its open equals the price of the first tick that fell in that bucket. -/
theorem candle_aggregation_correct (O : IndicatorOracle) (sym : String)
    (obi minv : ℚ) (ticks : List Ticker)
    (hmono : List.Pairwise (fun a c => a.timestamp ≤ c.timestamp) ticks) :
    ∀ c ∈ ((RsiBollingerStrategy.new sym obi minv).runTicks O ticks).closed_candles,
      (∀ t ∈ ticks, bucketStart t.timestamp = c.open_time →
          c.low ≤ t.price ∧ t.price ≤ c.high)
      ∧ ((ticks.filter fun t => bucketStart t.timestamp == c.open_time).map
          Ticker.price).head? = some c.open_ := by
  intro c hc
  have hrt := (runTicks_candle_fields O ticks (RsiBollingerStrategy.new sym obi minv)).2
  rw [hrt] at hc
  simp only [RsiBollingerStrategy.new, List.nil_append] at hc
  cases ticks with
  | nil => simp [runCandles] at hc
  | cons t0 ts =>
      obtain ⟨hhead, hpair'⟩ := List.pairwise_cons.mp hmono
      have hrun : (runCandles none (t0 :: ts)).2
          = (runCandles (some (CandleBuilder.new t0)) ts).2 := by
        simp [runCandles, candleStep]
      rw [hrun] at hc
      have hge' : ∀ t ∈ ts, (CandleBuilder.new t0).open_time ≤ bucketStart t.timestamp :=
        fun t ht => bucketStart_mono (hhead t ht)
      obtain ⟨ihb, ihd⟩ := runCandles_closed_spec ts (CandleBuilder.new t0) hpair' hge' c hc
      have hnew_time : (CandleBuilder.new t0).open_time = bucketStart t0.timestamp := rfl
      constructor
      · intro t ht hbk
        rcases List.mem_cons.mp ht with h0 | hts
        · subst h0
          rcases ihd with ⟨hoeq, _, hh, hl⟩ | ⟨hlt, _⟩
          · exact ⟨hl, hh⟩
          · rw [hnew_time, hbk] at hlt
            exact absurd hlt (lt_irrefl _)
        · exact ihb t hts hbk
      · rcases ihd with ⟨hoeq, hopen, _, _⟩ | ⟨hlt, hfilter⟩
        · have hcond : (bucketStart t0.timestamp == c.open_time) = true := by
            simp only [beq_iff_eq]
            rw [hoeq]
            exact hnew_time.symm
          simp [List.filter_cons, hcond, hopen, CandleBuilder.new]
        · have hne : (bucketStart t0.timestamp == c.open_time) = false := by
            rw [beq_eq_false_iff_ne]
            rw [hnew_time] at hlt
            exact ne_of_lt hlt
          simp only [List.filter_cons, hne, if_false, Bool.false_eq_true]
          exact hfilter

/-- Witness for C8: ticks at prices 5, 7 (same minute) and 6 (next minute)
close the candle `{open_time 0, open 5, high 7, low 5, close 7}`, whose
high/low bound both first-minute ticks and whose open is the first price. -/
theorem candle_aggregation_correct_witness :
    (⟨0, 5, 7, 5, 7⟩ : CandleBuilder) ∈ ((RsiBollingerStrategy.new "B" 0 0).runTicks
        zeroOracle
        [⟨"B", 5, 0, 0, 0, 0, 0⟩, ⟨"B", 7, 0, 0, 0, 0, 30000⟩,
          ⟨"B", 6, 0, 0, 0, 0, 60000⟩]).closed_candles
    ∧ ((∀ t ∈ [(⟨"B", 5, 0, 0, 0, 0, 0⟩ : Ticker), ⟨"B", 7, 0, 0, 0, 0, 30000⟩,
          ⟨"B", 6, 0, 0, 0, 0, 60000⟩],
        bucketStart t.timestamp = (⟨0, 5, 7, 5, 7⟩ : CandleBuilder).open_time →
          (⟨0, 5, 7, 5, 7⟩ : CandleBuilder).low ≤ t.price
          ∧ t.price ≤ (⟨0, 5, 7, 5, 7⟩ : CandleBuilder).high)
      ∧ (([(⟨"B", 5, 0, 0, 0, 0, 0⟩ : Ticker), ⟨"B", 7, 0, 0, 0, 0, 30000⟩,
            ⟨"B", 6, 0, 0, 0, 0, 60000⟩].filter fun t =>
              bucketStart t.timestamp == (⟨0, 5, 7, 5, 7⟩ : CandleBuilder).open_time).map
          Ticker.price).head? = some (⟨0, 5, 7, 5, 7⟩ : CandleBuilder).open_) :=
  ⟨by decide, candle_aggregation_correct zeroOracle "B" 0 0
    [⟨"B", 5, 0, 0, 0, 0, 0⟩, ⟨"B", 7, 0, 0, 0, 0, 30000⟩, ⟨"B", 6, 0, 0, 0, 0, 60000⟩]
    (by decide) ⟨0, 5, 7, 5, 7⟩ (by decide)⟩
